import Mathlib

/-!
Verification of the cyphernetes core against its natural-language
specification.  The Go sources are shallowly embedded: Go strings become
lists of characters, the hand-rolled lexer becomes a pure state-passing
function, the resource-kind resolver becomes a pure function over an
explicit cache and a discovery oracle, the graph sanitizer becomes a pure
function over a parsed result map, and the request-dispatch loop becomes a
small-step transition system.
-/

/-- Go strings are modelled as lists of characters (ASCII fragment). -/
abbrev GoStr := List Char

/-- Models Go strings.ToUpper on the ASCII fragment. -/
def toUpperStr (s : GoStr) : GoStr := s.map Char.toUpper

/-- Models Go strings.ToLower on the ASCII fragment. -/
def toLowerStr (s : GoStr) : GoStr := s.map Char.toLower

/-!
SECTION - The scanner (Go text/scanner as configured by NewLexer)

NewLexer sets s.Whitespace to tab, carriage return and space (newline is
deliberately not whitespace).  The scanner is used with its default mode:
identifiers, numbers and quoted strings are recognised, everything else is
returned as a single character.  Only the fragment exercised by the lexer
is modelled.
-/

/-- One token from the underlying character scanner. -/
inductive ScanTok where
  | ident (lit : GoStr)
  | int (lit : GoStr)
  | str (lit : GoStr)
  | char (c : Char)
  | eof
deriving DecidableEq, Repr

/-- The whitespace set installed by NewLexer: tab, CR and space. -/
def isScannerWS (c : Char) : Bool := c = ' ' || c = '\t' || c = '\r'

/-- First character of a scanner identifier (letter or underscore). -/
def isIdentStart (c : Char) : Bool := c.isAlpha || c = '_'

/-- Continuation character of a scanner identifier. -/
def isIdentCont (c : Char) : Bool := c.isAlpha || c.isDigit || c = '_'

/-- One step of the character scanner: skip configured whitespace, then
scan an identifier, an integer, a quoted string, or return the single
character; at end of input return eof. -/
def scan (input : GoStr) : ScanTok × GoStr :=
  match input.dropWhile isScannerWS with
  | [] => (.eof, [])
  | c :: rest =>
    if isIdentStart c then
      (.ident ((c :: rest).takeWhile isIdentCont), (c :: rest).dropWhile isIdentCont)
    else if c.isDigit then
      (.int ((c :: rest).takeWhile Char.isDigit), (c :: rest).dropWhile Char.isDigit)
    else if c = '"' then
      (.str ('"' :: rest.takeWhile (· ≠ '"') ++ ['"']), (rest.dropWhile (· ≠ '"')).drop 1)
    else
      (.char c, rest)

/-!
SECTION - The lexer (src/cmd/lexer.go)
-/

/-- The integer returned by one call to Lex, viewed symbolically.  ZERO is
the literal 0 returned for a buffered EOF; all grammar token constants are
distinct and nonzero. -/
inductive Tok where
  | MATCH
  | RETURN
  | BOOLEAN (lit : GoStr)
  | IDENT (lit : GoStr)
  | EOF
  | LPAREN
  | COLON
  | RPAREN
  | WS
  | LBRACE
  | RBRACE
  | STRING (lit : GoStr)
  | INT (lit : GoStr)
  | COMMA
  | ILLEGAL
  | JSONPATH (lit : GoStr)
  | ZERO
deriving DecidableEq, Repr

/-- The values the single-slot lookback buffer l.buf.tok can hold: its Go
zero value ILLEGAL, and the tokens the code stores into it. -/
inductive BufT where
  | ILLEGAL
  | RETURN
  | LPAREN
  | LBRACE
  | COMMA
  | EOF
deriving DecidableEq, Repr

/-- Lexer state: remaining input, the lookback buffer, and the
definingProps flag. -/
structure Lexer where
  input : GoStr
  bufTok : BufT
  definingProps : Bool
deriving DecidableEq, Repr

/-- NewLexer: fresh scanner over the input, buffer and flag at their Go
zero values. -/
def NewLexer (input : GoStr) : Lexer := ⟨input, .ILLEGAL, false⟩

/-- Whitespace consumed manually inside the JSONPATH capture branch
(space, tab, newline, CR). -/
def isCaptureWS (c : Char) : Bool := c = ' ' || c = '\t' || c = '\n' || c = '\r'

/-- Characters valid inside a JSONPATH literal. -/
def isValidJsonPathChar (c : Char) : Bool :=
  c = '.' || c = '[' || c = ']' ||
  ('0' ≤ c && c ≤ '9') || c = '_' ||
  ('a' ≤ c && c ≤ 'z') || ('A' ≤ c && c ≤ 'Z') ||
  c = '"' || c = '*' || c = '$' || c = '#'

/-- The raw-capture condition tested at the top of Lex: the lookback
buffer holds RETURN, LBRACE, or COMMA while definingProps is set. -/
def captureMode (l : Lexer) : Bool :=
  l.bufTok = .RETURN || l.bufTok = .LBRACE ||
    (l.bufTok = .COMMA && l.definingProps)

/-- One call to (l *Lexer) Lex, returning the token and the new state. -/
def lex (l : Lexer) : Tok × Lexer :=
  if l.bufTok = .EOF then
    (.ZERO, l)
  else if captureMode l then
    let rest := l.input.dropWhile isCaptureWS
    (.JSONPATH (rest.takeWhile isValidJsonPathChar),
      { l with input := rest.dropWhile isValidJsonPathChar, bufTok := .ILLEGAL })
  else
    match scan l.input with
    | (.ident lit, rest) =>
      if toUpperStr lit = "MATCH".toList then (.MATCH, { l with input := rest })
      else if toUpperStr lit = "RETURN".toList then
        (.RETURN, { l with input := rest, bufTok := .RETURN })
      else if toUpperStr lit = "TRUE".toList || toUpperStr lit = "FALSE".toList then
        (.BOOLEAN lit, { l with input := rest })
      else (.IDENT lit, { l with input := rest })
    | (.eof, rest) => (.EOF, { l with input := rest, bufTok := .EOF })
    | (.str lit, rest) => (.STRING lit, { l with input := rest })
    | (.int lit, rest) => (.INT lit, { l with input := rest })
    | (.char c, rest) =>
      if c = '(' then (.LPAREN, { l with input := rest, bufTok := .LPAREN })
      else if c = ':' then (.COLON, { l with input := rest, definingProps := true })
      else if c = ')' then (.RPAREN, { l with input := rest, definingProps := false })
      else if c = ' ' || c = '\t' || c = '\r' then (.WS, { l with input := rest })
      else if c = '{' then (.LBRACE, { l with input := rest, bufTok := .LBRACE })
      else if c = '}' then (.RBRACE, { l with input := rest })
      else if c = ',' then (.COMMA, { l with input := rest, bufTok := .COMMA })
      else (.ILLEGAL, { l with input := rest })

/-- Run the lexer until it reports end of input, with fuel. -/
def lexAll : Nat → Lexer → List Tok
  | 0, _ => []
  | n + 1, l =>
    match lex l with
    | (t, l2) => if t = .EOF || t = .ZERO then [t] else t :: lexAll n l2

/-- Iterate the state part of the lexer n times. -/
def lexSteps : Nat → Lexer → Lexer
  | 0, l => l
  | n + 1, l => lexSteps n (lex l).2

/-- A return value that signals end of input to the parser: the EOF token
on first emission, the literal 0 afterwards. -/
def isEndOfInput : Tok → Bool
  | .EOF => true
  | .ZERO => true
  | _ => false

/-- Predicate picking out JSONPATH tokens. -/
def isJsonPathTok : Tok → Bool
  | .JSONPATH _ => true
  | _ => false

/-- A buffered EOF makes Lex return 0 immediately, leaving the state
untouched. -/
theorem lex_of_bufEOF (s : Lexer) (h : s.bufTok = .EOF) : lex s = (.ZERO, s) := by
  unfold lex
  rw [if_pos h]

set_option maxHeartbeats 2000000 in
/-- Whenever Lex returns the EOF token, it has stored EOF in the lookback
buffer. -/
theorem lex_eof_buf (l : Lexer) (h : (lex l).1 = .EOF) : (lex l).2.bufTok = .EOF := by
  by_cases hb : l.bufTok = .EOF
  · rw [lex_of_bufEOF l hb] at h
    simp at h
  · by_cases hc : captureMode l = true
    · unfold lex at h
      rw [if_neg hb, if_pos hc] at h
      simp at h
    · unfold lex at h ⊢
      rw [if_neg hb, if_neg hc] at h ⊢
      rcases hs : scan l.input with ⟨tk, rest⟩
      revert h
      cases tk <;> simp only [] <;> (repeat' split) <;> intro h <;>
        first | rfl | simp_all

/-- Claim C1 fails on the code: for the input
RETURN d.metadata.name, d.spec.replicas the lexer emits exactly one
path-literal token, not two — after the comma the lookback holds COMMA but
definingProps is false (no property block is open in a RETURN clause), so
raw capture is not re-entered. -/
theorem c1_counterexample :
    (lexAll 30 (NewLexer "RETURN d.metadata.name, d.spec.replicas".toList)).filter
        isJsonPathTok = [.JSONPATH "d.metadata.name".toList] ∧
    (lexAll 30 (NewLexer "RETURN d.metadata.name, d.spec.replicas".toList)).filter
        isJsonPathTok ≠
      [.JSONPATH "d.metadata.name".toList, .JSONPATH "d.spec.replicas".toList] := by
  constructor
  · rfl
  · decide

/-- Claim C1 (amended): for the input
RETURN d.metadata.name, d.spec.replicas the lexer emits exactly one
path-literal token, d.metadata.name, skipping the leading space after
RETURN; the comma does not re-enter raw capture because definingProps is
false outside a property block, so the remainder lexes as plain
identifiers with the dots as illegal tokens. -/
theorem c1_single_jsonpath :
    lexAll 30 (NewLexer "RETURN d.metadata.name, d.spec.replicas".toList) =
      [.RETURN, .JSONPATH "d.metadata.name".toList, .COMMA, .IDENT "d".toList,
       .ILLEGAL, .IDENT "spec".toList, .ILLEGAL, .IDENT "replicas".toList, .EOF] := by
  rfl

/-- Claim C2 fails on the code: a binding literally named Match in node
position lexes as the MATCH keyword token, not as an identifier — keyword
recognition is purely case-insensitive spelling comparison with no
position sensitivity. -/
theorem c2_counterexample :
    lexAll 30 (NewLexer "MATCH (Match:Deployment)".toList) =
      [.MATCH, .LPAREN, .MATCH, .COLON, .IDENT "Deployment".toList, .RPAREN, .EOF] ∧
    Tok.MATCH ≠ Tok.IDENT "Match".toList := by
  constructor
  · rfl
  · decide

/-- Claim C2 (amended): in normal scanning mode, any identifier whose
upper-casing equals MATCH or RETURN lexes as that keyword token, and any
identifier whose upper-casing equals TRUE or FALSE lexes as a boolean
token carrying its original spelling, regardless of position; an
identifier whose upper-casing differs from all four passes through
verbatim as an identifier token with its original spelling. -/
theorem c2_keyword_position_free (l : Lexer) (lit rest : GoStr)
    (hbuf : l.bufTok ≠ .EOF) (hcap : captureMode l = false)
    (hscan : scan l.input = (.ident lit, rest)) :
    (toUpperStr lit = "MATCH".toList → lex l = (.MATCH, { l with input := rest })) ∧
    (toUpperStr lit = "RETURN".toList →
      lex l = (.RETURN, { l with input := rest, bufTok := .RETURN })) ∧
    (toUpperStr lit = "TRUE".toList ∨ toUpperStr lit = "FALSE".toList →
      lex l = (.BOOLEAN lit, { l with input := rest })) ∧
    (toUpperStr lit ≠ "MATCH".toList → toUpperStr lit ≠ "RETURN".toList →
      toUpperStr lit ≠ "TRUE".toList → toUpperStr lit ≠ "FALSE".toList →
      lex l = (.IDENT lit, { l with input := rest })) := by
  unfold lex
  rw [if_neg hbuf, hcap]
  simp only [Bool.false_eq_true, if_false, hscan]
  refine ⟨?_, ?_, ?_, ?_⟩
  · intro hm
    rw [if_pos hm]
  · intro hr
    rw [if_neg (by rw [hr]; decide), if_pos hr]
  · intro hb
    have h1 : toUpperStr lit ≠ "MATCH".toList := by
      rcases hb with hb | hb <;> rw [hb] <;> decide
    have h2 : toUpperStr lit ≠ "RETURN".toList := by
      rcases hb with hb | hb <;> rw [hb] <;> decide
    rw [if_neg h1, if_neg h2,
      if_pos (by simp only [Bool.or_eq_true, decide_eq_true_eq]; exact hb)]
  · intro h1 h2 h3 h4
    rw [if_neg h1, if_neg h2,
      if_neg (by simp only [Bool.or_eq_true, decide_eq_true_eq]; exact not_or.mpr ⟨h3, h4⟩)]

/-- Witness for the amended C2 theorem, one instance per branch: in node
position the spelling Match yields the MATCH keyword, Return yields the
RETURN keyword, True yields a boolean token with its spelling kept, and
Foo passes through verbatim as an identifier. -/
theorem c2_keyword_position_free_witness :
    lex ⟨"Match:Deployment)".toList, .LPAREN, false⟩ =
      (.MATCH, ⟨":Deployment)".toList, .LPAREN, false⟩) ∧
    lex ⟨"Return)".toList, .LPAREN, false⟩ =
      (.RETURN, ⟨")".toList, .RETURN, false⟩) ∧
    lex ⟨"True)".toList, .LPAREN, false⟩ =
      (.BOOLEAN "True".toList, ⟨")".toList, .LPAREN, false⟩) ∧
    lex ⟨"Foo)".toList, .LPAREN, false⟩ =
      (.IDENT "Foo".toList, ⟨")".toList, .LPAREN, false⟩) :=
  ⟨(c2_keyword_position_free ⟨"Match:Deployment)".toList, .LPAREN, false⟩
      "Match".toList ":Deployment)".toList (by decide) (by decide) rfl).1 rfl,
   (c2_keyword_position_free ⟨"Return)".toList, .LPAREN, false⟩
      "Return".toList ")".toList (by decide) (by decide) rfl).2.1 rfl,
   (c2_keyword_position_free ⟨"True)".toList, .LPAREN, false⟩
      "True".toList ")".toList (by decide) (by decide) rfl).2.2.1 (Or.inl rfl),
   (c2_keyword_position_free ⟨"Foo)".toList, .LPAREN, false⟩
      "Foo".toList ")".toList (by decide) (by decide) rfl).2.2.2
      (by decide) (by decide) (by decide) (by decide)⟩

/-- Claim C3 fails on the code: lexing the property-block-open delimiter
does not set definingProps (it only arms the lookback for raw capture),
and lexing the close delimiter does not clear it; the flag is set by the
colon and cleared by the closing parenthesis. -/
theorem c3_counterexample :
    (lex (NewLexer "\x7ba\x7d".toList)).1 = .LBRACE ∧
    (lex (NewLexer "\x7ba\x7d".toList)).2.definingProps = false ∧
    (lexAll 5 (NewLexer ":\x7d".toList)).get? 1 = some .RBRACE ∧
    (lexSteps 2 (NewLexer ":\x7d".toList)).definingProps = true := by
  refine ⟨rfl, rfl, rfl, rfl⟩

set_option maxHeartbeats 2000000 in
/-- Claim C3 (amended): definingProps is entered exactly when a COLON
token is emitted and exited exactly when an RPAREN token is emitted — no
other call changes it; and while the flag is on, a comma in the lookback
buffer re-triggers raw capture of a path literal on the next call. -/
theorem c3_definingProps (l : Lexer) :
    (lex l).2.definingProps =
      (if (lex l).1 = .COLON then true
       else if (lex l).1 = .RPAREN then false
       else l.definingProps) ∧
    (l.bufTok = .COMMA → l.definingProps = true →
      (lex l).1 =
        .JSONPATH ((l.input.dropWhile isCaptureWS).takeWhile isValidJsonPathChar)) := by
  constructor
  · by_cases hb : l.bufTok = .EOF
    · rw [lex_of_bufEOF l hb]
      simp
    · by_cases hc : captureMode l = true
      · unfold lex
        rw [if_neg hb, if_pos hc]
        simp
      · unfold lex
        rw [if_neg hb, if_neg hc]
        rcases hs : scan l.input with ⟨tk, rest⟩
        clear hs
        cases tk <;> simp only [] <;> (repeat' split) <;>
          first | rfl | simp_all
  · intro hc hd
    unfold lex
    have hb : l.bufTok ≠ .EOF := by rw [hc]; decide
    rw [if_neg hb, if_pos (by simp [captureMode, hc, hd])]

/-- Witness for the amended C3 theorem: with COMMA in the lookback and
definingProps set, the next call captures a path literal. -/
theorem c3_definingProps_witness :
    (lex ⟨"x, y".toList, .COMMA, true⟩).1 = .JSONPATH "x".toList :=
  (c3_definingProps ⟨"x, y".toList, .COMMA, true⟩).2 rfl rfl

/-- Claim C8: end-of-input is sticky — once Lex has emitted the EOF token,
every later call returns end-of-input (the literal 0) without touching
the state, hence without re-scanning the input, for any number of calls. -/
theorem c8_eof_sticky (l : Lexer) (h : (lex l).1 = .EOF) (n : Nat) :
    lexSteps n (lex l).2 = (lex l).2 ∧
    lex (lexSteps n (lex l).2) = (.ZERO, (lex l).2) ∧
    isEndOfInput (lex (lexSteps n (lex l).2)).1 = true := by
  have hbuf : (lex l).2.bufTok = .EOF := lex_eof_buf l h
  have hfix : ∀ m, lexSteps m (lex l).2 = (lex l).2 := by
    intro m
    induction m with
    | zero => rfl
    | succ k ih =>
      show lexSteps k (lex (lex l).2).2 = (lex l).2
      rw [lex_of_bufEOF _ hbuf]
      exact ih
  refine ⟨hfix n, ?_, ?_⟩
  · rw [hfix n, lex_of_bufEOF _ hbuf]
  · rw [hfix n, lex_of_bufEOF _ hbuf]
    rfl

/-- Witness for C8: the empty input emits EOF at once, and three further
calls all return end-of-input with the state unchanged. -/
theorem c8_eof_sticky_witness :
    lexSteps 3 (lex (NewLexer [])).2 = (lex (NewLexer [])).2 ∧
    lex (lexSteps 3 (lex (NewLexer [])).2) = (.ZERO, (lex (NewLexer [])).2) ∧
    isEndOfInput (lex (lexSteps 3 (lex (NewLexer [])).2)).1 = true :=
  c8_eof_sticky (NewLexer []) rfl 3

/-!
SECTION - Resource-kind resolver (findGVR in shell.go)

The discovery call ServerPreferredResources is a collaborator: it is
modelled by its outcome, either an error or the full catalog.  Likewise
ParseGroupVersion from the API machinery is passed as a function
parameter, so every theorem holds for any parser the library provides; a
concrete parser following the library semantics is supplied for
witnesses.  String case folding is modelled on the ASCII fragment.
-/

/-- One entry of the discovery catalog: plural resource name, Kind name
and short-name aliases. -/
structure APIResource where
  name : GoStr
  kind : GoStr
  shortNames : List GoStr
deriving DecidableEq, Repr

/-- One group of the discovery catalog with its group/version string. -/
structure APIResourceList where
  groupVersion : GoStr
  apiResources : List APIResource
deriving DecidableEq, Repr

/-- A parsed group/version pair. -/
structure GroupVersion where
  group : GoStr
  version : GoStr
deriving DecidableEq, Repr

/-- A fully qualified resource coordinate. -/
structure GroupVersionResource where
  group : GoStr
  version : GoStr
  resource : GoStr
deriving DecidableEq, Repr

/-- strings.EqualFold on the ASCII fragment: equality up to case. -/
def equalFold (a b : GoStr) : Bool := toLowerStr a = toLowerStr b

/-- containsIgnoreCase from shell.go: case-insensitive membership. -/
def containsIgnoreCase (slice : List GoStr) (str : GoStr) : Bool :=
  slice.any (fun item => equalFold item str)

/-- The gvrCache map, as an association list keyed by the normalized
identifier. -/
abbrev GvrCache := List (GoStr × GroupVersionResource)

/-- Map read. -/
def cacheLookup (c : GvrCache) (k : GoStr) : Option GroupVersionResource :=
  match c with
  | [] => none
  | (k2, v) :: rest => if k2 = k then some v else cacheLookup rest k

/-- Map write: replace the entry for the key if present, else append. -/
def cacheInsert (c : GvrCache) (k : GoStr) (v : GroupVersionResource) : GvrCache :=
  match c with
  | [] => [(k, v)]
  | (k2, v2) :: rest =>
    if k2 = k then (k, v) :: rest else (k2, v2) :: cacheInsert rest k v

/-- The inner-loop match test of findGVR: plural name or short names
against the normalized identifier, Kind against the original identifier,
all case-insensitively. -/
def matchesResource (r : APIResource) (normId origId : GoStr) : Bool :=
  equalFold r.name normId || equalFold r.kind origId ||
    containsIgnoreCase r.shortNames normId

/-- The double loop of findGVR: the first (groupVersion, resource) pair
whose resource matches, in catalog enumeration order. -/
def findMatch (catalog : List APIResourceList) (normId origId : GoStr) :
    Option (GoStr × APIResource) :=
  match catalog with
  | [] => none
  | arl :: rest =>
    match arl.apiResources.find? (fun r => matchesResource r normId origId) with
    | some r => some (arl.groupVersion, r)
    | none => findMatch rest normId origId

/-- The error produced after an exhausted scan, naming the original
identifier. -/
def notFoundMsg (resourceIdentifier : GoStr) : GoStr :=
  "resource identifier not found: ".toList ++ resourceIdentifier

/-- What one call to findGVR produces: the result handed to the caller,
the cache state after the call, and how many discovery calls were made. -/
structure ResolveOutcome where
  result : Except GoStr GroupVersionResource
  cache : GvrCache
  discoveryCalls : Nat
deriving Repr

/-- findGVR from shell.go: normalize the identifier, return a cache hit
immediately, otherwise call discovery once and scan its catalog; a match
is parsed, cached under the normalized identifier and returned; an
exhausted scan produces the not-found error; discovery and parse errors
are returned as they are. -/
def findGVR (parseGroupVersion : GoStr → Except GoStr GroupVersion)
    (discovery : Except GoStr (List APIResourceList))
    (cache : GvrCache) (resourceIdentifier : GoStr) : ResolveOutcome :=
  match cacheLookup cache (toLowerStr resourceIdentifier) with
  | some gvr => ⟨.ok gvr, cache, 0⟩
  | none =>
    match discovery with
    | .error e => ⟨.error e, cache, 1⟩
    | .ok catalog =>
      match findMatch catalog (toLowerStr resourceIdentifier) resourceIdentifier with
      | none => ⟨.error (notFoundMsg resourceIdentifier), cache, 1⟩
      | some (gvStr, r) =>
        match parseGroupVersion gvStr with
        | .error e => ⟨.error e, cache, 1⟩
        | .ok gv =>
          ⟨.ok ⟨gv.group, gv.version, r.name⟩,
            cacheInsert cache (toLowerStr resourceIdentifier)
              ⟨gv.group, gv.version, r.name⟩, 1⟩

/-- ParseGroupVersion following the API machinery semantics: empty or
bare slash parse to the empty pair, no slash means a bare version, one
slash splits group from version, more slashes fail. -/
def parseGroupVersionK8s (gv : GoStr) : Except GoStr GroupVersion :=
  if gv = [] ∨ gv = ['/'] then .ok ⟨[], []⟩
  else match gv.count '/' with
  | 0 => .ok ⟨[], gv⟩
  | 1 => .ok ⟨gv.takeWhile (· ≠ '/'), (gv.dropWhile (· ≠ '/')).drop 1⟩
  | _ => .error ("unexpected GroupVersion string: ".toList ++ gv)

/-- Reading back the key just written. -/
theorem cacheLookup_insert_self (c : GvrCache) (k : GoStr) (v : GroupVersionResource) :
    cacheLookup (cacheInsert c k v) k = some v := by
  induction c with
  | nil => simp [cacheInsert, cacheLookup]
  | cons kv rest ih =>
    rcases kv with ⟨k2, v2⟩
    unfold cacheInsert
    by_cases hk : k2 = k
    · rw [if_pos hk]
      simp [cacheLookup]
    · rw [if_neg hk]
      unfold cacheLookup
      rw [if_neg hk]
      exact ih

/-- A cache hit returns immediately: same coordinate, same cache, no
discovery call. -/
theorem findGVR_hit (parseGV : GoStr → Except GoStr GroupVersion)
    (discovery : Except GoStr (List APIResourceList)) (cache : GvrCache)
    (resourceIdentifier : GoStr) (gvr : GroupVersionResource)
    (h : cacheLookup cache (toLowerStr resourceIdentifier) = some gvr) :
    findGVR parseGV discovery cache resourceIdentifier = ⟨.ok gvr, cache, 0⟩ := by
  unfold findGVR
  rw [h]

/-- On a cache miss, a failing discovery call is returned as it is. -/
theorem findGVR_discErr (parseGV : GoStr → Except GoStr GroupVersion)
    (cache : GvrCache) (resourceIdentifier e : GoStr)
    (hl : cacheLookup cache (toLowerStr resourceIdentifier) = none) :
    findGVR parseGV (.error e) cache resourceIdentifier = ⟨.error e, cache, 1⟩ := by
  unfold findGVR
  rw [hl]

/-- On a cache miss with an exhausted catalog scan, the not-found error
is produced. -/
theorem findGVR_noMatch (parseGV : GoStr → Except GoStr GroupVersion)
    (catalog : List APIResourceList) (cache : GvrCache) (resourceIdentifier : GoStr)
    (hl : cacheLookup cache (toLowerStr resourceIdentifier) = none)
    (hm : findMatch catalog (toLowerStr resourceIdentifier) resourceIdentifier = none) :
    findGVR parseGV (.ok catalog) cache resourceIdentifier =
      ⟨.error (notFoundMsg resourceIdentifier), cache, 1⟩ := by
  unfold findGVR
  simp only [hl, hm]

/-- On a cache miss with a catalog match whose group/version fails to
parse, the parse error is returned and nothing is cached. -/
theorem findGVR_parseErr (parseGV : GoStr → Except GoStr GroupVersion)
    (catalog : List APIResourceList) (cache : GvrCache)
    (resourceIdentifier gvStr e : GoStr) (r : APIResource)
    (hl : cacheLookup cache (toLowerStr resourceIdentifier) = none)
    (hm : findMatch catalog (toLowerStr resourceIdentifier) resourceIdentifier =
      some (gvStr, r))
    (hp : parseGV gvStr = .error e) :
    findGVR parseGV (.ok catalog) cache resourceIdentifier = ⟨.error e, cache, 1⟩ := by
  unfold findGVR
  simp only [hl, hm, hp]

/-- On a cache miss with a catalog match that parses, the coordinate is
returned and written to the cache under the normalized identifier. -/
theorem findGVR_found (parseGV : GoStr → Except GoStr GroupVersion)
    (catalog : List APIResourceList) (cache : GvrCache)
    (resourceIdentifier gvStr : GoStr) (r : APIResource) (gv : GroupVersion)
    (hl : cacheLookup cache (toLowerStr resourceIdentifier) = none)
    (hm : findMatch catalog (toLowerStr resourceIdentifier) resourceIdentifier =
      some (gvStr, r))
    (hp : parseGV gvStr = .ok gv) :
    findGVR parseGV (.ok catalog) cache resourceIdentifier =
      ⟨.ok ⟨gv.group, gv.version, r.name⟩,
        cacheInsert cache (toLowerStr resourceIdentifier)
          ⟨gv.group, gv.version, r.name⟩, 1⟩ := by
  unfold findGVR
  simp only [hl, hm, hp]

/-- After any successful call, the cache holds the returned coordinate
under the normalized identifier. -/
theorem findGVR_ok_lookup (parseGV : GoStr → Except GoStr GroupVersion)
    (discovery : Except GoStr (List APIResourceList)) (cache : GvrCache)
    (resourceIdentifier : GoStr) (gvr : GroupVersionResource)
    (h : (findGVR parseGV discovery cache resourceIdentifier).result = .ok gvr) :
    cacheLookup (findGVR parseGV discovery cache resourceIdentifier).cache
      (toLowerStr resourceIdentifier) = some gvr := by
  rcases hl : cacheLookup cache (toLowerStr resourceIdentifier) with _ | g
  · rcases discovery with e | catalog
    · rw [findGVR_discErr parseGV cache resourceIdentifier e hl] at h
      exact absurd h (by simp)
    · rcases hm : findMatch catalog (toLowerStr resourceIdentifier) resourceIdentifier
        with _ | ⟨gvStr, r⟩
      · rw [findGVR_noMatch parseGV catalog cache resourceIdentifier hl hm] at h
        exact absurd h (by simp)
      · rcases hp : parseGV gvStr with e | gv
        · rw [findGVR_parseErr parseGV catalog cache resourceIdentifier gvStr e r
            hl hm hp] at h
          exact absurd h (by simp)
        · rw [findGVR_found parseGV catalog cache resourceIdentifier gvStr r gv
            hl hm hp] at h ⊢
          obtain rfl : GroupVersionResource.mk gv.group gv.version r.name = gvr := by
            simpa using h
          exact cacheLookup_insert_self cache (toLowerStr resourceIdentifier) _
  · rw [findGVR_hit parseGV discovery cache resourceIdentifier g hl] at h ⊢
    obtain rfl : g = gvr := by simpa using h
    exact hl

/-- Every call makes at most one discovery call. -/
theorem findGVR_calls_le_one (parseGV : GoStr → Except GoStr GroupVersion)
    (discovery : Except GoStr (List APIResourceList)) (cache : GvrCache)
    (resourceIdentifier : GoStr) :
    (findGVR parseGV discovery cache resourceIdentifier).discoveryCalls ≤ 1 := by
  rcases hl : cacheLookup cache (toLowerStr resourceIdentifier) with _ | g
  · rcases discovery with e | catalog
    · rw [findGVR_discErr parseGV cache resourceIdentifier e hl]
    · rcases hm : findMatch catalog (toLowerStr resourceIdentifier) resourceIdentifier
        with _ | ⟨gvStr, r⟩
      · rw [findGVR_noMatch parseGV catalog cache resourceIdentifier hl hm]
      · rcases hp : parseGV gvStr with e | gv
        · rw [findGVR_parseErr parseGV catalog cache resourceIdentifier gvStr e r
            hl hm hp]
        · rw [findGVR_found parseGV catalog cache resourceIdentifier gvStr r gv
            hl hm hp]
  · rw [findGVR_hit parseGV discovery cache resourceIdentifier g hl]
    exact Nat.zero_le 1

/-- Claim C4: once a call to findGVR succeeds, the coordinate sits in the
cache under the lower-cased identifier; a second call for the same
identifier returns the identical coordinate as a pure cache hit with no
discovery call, and discovery is queried at most once across the two
calls. -/
theorem c4_resolve_twice (parseGV : GoStr → Except GoStr GroupVersion)
    (discovery : Except GoStr (List APIResourceList)) (cache : GvrCache)
    (resourceIdentifier : GoStr) (gvr : GroupVersionResource)
    (h : (findGVR parseGV discovery cache resourceIdentifier).result = .ok gvr) :
    cacheLookup (findGVR parseGV discovery cache resourceIdentifier).cache
      (toLowerStr resourceIdentifier) = some gvr ∧
    findGVR parseGV discovery
        (findGVR parseGV discovery cache resourceIdentifier).cache resourceIdentifier =
      ⟨.ok gvr, (findGVR parseGV discovery cache resourceIdentifier).cache, 0⟩ ∧
    (findGVR parseGV discovery cache resourceIdentifier).discoveryCalls +
        (findGVR parseGV discovery
          (findGVR parseGV discovery cache resourceIdentifier).cache
          resourceIdentifier).discoveryCalls ≤ 1 := by
  have h1 := findGVR_ok_lookup parseGV discovery cache resourceIdentifier gvr h
  have h2 := findGVR_hit parseGV discovery
    (findGVR parseGV discovery cache resourceIdentifier).cache resourceIdentifier gvr h1
  refine ⟨h1, h2, ?_⟩
  rw [h2]
  simpa using findGVR_calls_le_one parseGV discovery cache resourceIdentifier

/-- Witness for C4: a one-entry catalog resolves the identifier
Deployment into the apps/v1 deployments coordinate; the second call is a
cache hit and discovery is queried once in total. -/
theorem c4_resolve_twice_witness :
    (findGVR parseGroupVersionK8s
        (.ok [⟨"apps/v1".toList,
          [⟨"deployments".toList, "Deployment".toList, ["deploy".toList]⟩]⟩])
        [] "Deployment".toList).result =
      .ok ⟨"apps".toList, "v1".toList, "deployments".toList⟩ ∧
    (cacheLookup (findGVR parseGroupVersionK8s
        (.ok [⟨"apps/v1".toList,
          [⟨"deployments".toList, "Deployment".toList, ["deploy".toList]⟩]⟩])
        [] "Deployment".toList).cache (toLowerStr "Deployment".toList) =
      some ⟨"apps".toList, "v1".toList, "deployments".toList⟩) :=
  ⟨rfl, (c4_resolve_twice parseGroupVersionK8s
    (.ok [⟨"apps/v1".toList,
      [⟨"deployments".toList, "Deployment".toList, ["deploy".toList]⟩]⟩])
    [] "Deployment".toList ⟨"apps".toList, "v1".toList, "deployments".toList⟩ rfl).1⟩

/-- An everywhere-false match predicate makes the catalog scan come up
empty. -/
theorem findMatch_eq_none (catalog : List APIResourceList) (normId origId : GoStr)
    (h : ∀ arl ∈ catalog, ∀ r ∈ arl.apiResources,
      matchesResource r normId origId = false) :
    findMatch catalog normId origId = none := by
  induction catalog with
  | nil => rfl
  | cons arl rest ih =>
    unfold findMatch
    rcases hf : arl.apiResources.find? (fun r => matchesResource r normId origId)
      with _ | r
    · exact ih (fun a ha => h a (List.mem_cons_of_mem _ ha))
    · have hmem : r ∈ arl.apiResources := List.mem_of_find?_eq_some hf
      have htrue := List.find?_some hf
      have hfalse := h arl (List.mem_cons_self _ _) r hmem
      rw [hfalse] at htrue
      exact absurd htrue (by decide)

/-- Claim C7: on a cache miss, a discovery failure is surfaced to the
caller unchanged; and when the whole catalog holds no entry matching the
identifier by plural name, Kind name or short-name alias, findGVR fails
with the not-found error, whose text names the identifier (it carries the
identifier as a suffix). -/
theorem c7_resolution_errors (parseGV : GoStr → Except GoStr GroupVersion)
    (discovery : Except GoStr (List APIResourceList)) (cache : GvrCache)
    (resourceIdentifier : GoStr)
    (hmiss : cacheLookup cache (toLowerStr resourceIdentifier) = none) :
    (∀ e, discovery = .error e →
      (findGVR parseGV discovery cache resourceIdentifier).result = .error e) ∧
    (∀ catalog, discovery = .ok catalog →
      (∀ arl ∈ catalog, ∀ r ∈ arl.apiResources,
        matchesResource r (toLowerStr resourceIdentifier) resourceIdentifier = false) →
      (findGVR parseGV discovery cache resourceIdentifier).result =
        .error (notFoundMsg resourceIdentifier)) ∧
    resourceIdentifier <:+ notFoundMsg resourceIdentifier := by
  refine ⟨?_, ?_, List.suffix_append _ _⟩
  · intro e he
    subst he
    rw [findGVR_discErr parseGV cache resourceIdentifier e hmiss]
  · intro catalog hc hnone
    subst hc
    rw [findGVR_noMatch parseGV catalog cache resourceIdentifier hmiss
      (findMatch_eq_none catalog (toLowerStr resourceIdentifier) resourceIdentifier hnone)]

/-- Witness for C7: with an empty cache, a failing discovery call is
returned as it is, and an empty catalog produces the not-found error for
the identifier deployments. -/
theorem c7_resolution_errors_witness :
    (findGVR parseGroupVersionK8s (.error "network down".toList) []
        "deployments".toList).result = .error "network down".toList ∧
    (findGVR parseGroupVersionK8s (.ok []) [] "deployments".toList).result =
      .error (notFoundMsg "deployments".toList) :=
  ⟨(c7_resolution_errors parseGroupVersionK8s (.error "network down".toList) []
      "deployments".toList rfl).1 "network down".toList rfl,
   (c7_resolution_errors parseGroupVersionK8s (.ok []) [] "deployments".toList
      rfl).2.1 [] rfl (by intro arl harl; exact absurd harl (List.not_mem_nil arl))⟩

/-- Claim C10: a failing call to findGVR leaves the cache exactly as it
was; the cache changes only on a successful resolution, and then only by
inserting the returned coordinate under the normalized identifier. -/
theorem c10_cache_unchanged_on_failure (parseGV : GoStr → Except GoStr GroupVersion)
    (discovery : Except GoStr (List APIResourceList)) (cache : GvrCache)
    (resourceIdentifier : GoStr) :
    (∀ e, (findGVR parseGV discovery cache resourceIdentifier).result = .error e →
      (findGVR parseGV discovery cache resourceIdentifier).cache = cache) ∧
    (∀ gvr, (findGVR parseGV discovery cache resourceIdentifier).result = .ok gvr →
      (findGVR parseGV discovery cache resourceIdentifier).cache = cache ∨
      (findGVR parseGV discovery cache resourceIdentifier).cache =
        cacheInsert cache (toLowerStr resourceIdentifier) gvr) := by
  rcases hl : cacheLookup cache (toLowerStr resourceIdentifier) with _ | g
  · rcases discovery with e | catalog
    · rw [findGVR_discErr parseGV cache resourceIdentifier e hl]
      exact ⟨fun e2 h2 => rfl, fun gvr h2 => by simp at h2⟩
    · rcases hm : findMatch catalog (toLowerStr resourceIdentifier) resourceIdentifier
        with _ | ⟨gvStr, r⟩
      · rw [findGVR_noMatch parseGV catalog cache resourceIdentifier hl hm]
        exact ⟨fun e2 h2 => rfl, fun gvr h2 => by simp at h2⟩
      · rcases hp : parseGV gvStr with e | gv
        · rw [findGVR_parseErr parseGV catalog cache resourceIdentifier gvStr e r
            hl hm hp]
          exact ⟨fun e2 h2 => rfl, fun gvr h2 => by simp at h2⟩
        · rw [findGVR_found parseGV catalog cache resourceIdentifier gvStr r gv
            hl hm hp]
          refine ⟨fun e2 h2 => by simp at h2, fun gvr h2 => ?_⟩
          obtain rfl : GroupVersionResource.mk gv.group gv.version r.name = gvr := by
            simpa using h2
          exact Or.inr rfl
  · rw [findGVR_hit parseGV discovery cache resourceIdentifier g hl]
    exact ⟨fun e2 h2 => by simp at h2, fun gvr h2 => Or.inl rfl⟩

/-- Witness for C10: a failing discovery call against an empty cache
leaves the cache empty. -/
theorem c10_cache_unchanged_on_failure_witness :
    (findGVR parseGroupVersionK8s (.error "forbidden".toList) []
        "pods".toList).result = .error "forbidden".toList ∧
    (findGVR parseGroupVersionK8s (.error "forbidden".toList) []
        "pods".toList).cache = [] :=
  ⟨rfl, (c10_cache_unchanged_on_failure parseGroupVersionK8s
    (.error "forbidden".toList) [] "pods".toList).1 "forbidden".toList rfl⟩

/-!
SECTION - Graph model and sanitizeGraph (shell-graph.go)

The executor result arrives as a JSON string; sanitizeGraph unmarshals it
into a map from binding id to a list of documents and compares each
name field of each document with the node name.  The parsed form is modelled
directly (an Option, none standing for an unmarshal failure), and each
document is reduced to its name field, the only part the code reads.  The
node map built for deduplication is modelled as an association list in
first-insertion key order, one admissible linearization of Go map
iteration.
-/

/-- parser.Node restricted to the fields sanitizeGraph reads. -/
structure Node where
  Id : GoStr
  Kind : GoStr
  Name : GoStr
deriving DecidableEq, Repr

/-- parser.Edge: endpoints are node id strings; typ is the Go field
named Type. -/
structure Edge where
  From : GoStr
  To : GoStr
  typ : GoStr
deriving DecidableEq, Repr

/-- parser.Graph. -/
structure Graph where
  Nodes : List Node
  Edges : List Edge
deriving DecidableEq, Repr

/-- The node id string sanitizeGraph constructs: Kind, a slash, Name. -/
def mkNodeId (n : Node) : GoStr := n.Kind ++ '/' :: n.Name

/-- Insertion into the deduplication map: replace an existing key. -/
def nodeMapInsert (m : List (GoStr × Node)) (k : GoStr) (v : Node) :
    List (GoStr × Node) :=
  match m with
  | [] => [(k, v)]
  | (k2, v2) :: rest =>
    if k2 = k then (k, v) :: rest else (k2, v2) :: nodeMapInsert rest k v

/-- The nodeMap loop of sanitizeGraph. -/
def buildNodeMap (nodes : List Node) : List (GoStr × Node) :=
  nodes.foldl (fun m n => nodeMapInsert m (mkNodeId n) n) []

/-- Rebuilding g.Nodes from the map values. -/
def dedupNodes (nodes : List Node) : List Node := (buildNodeMap nodes).map Prod.snd

/-- One result document, reduced to the value of its name key (none when
the key is absent or not a string). -/
structure ResultDoc where
  nameField : Option GoStr
deriving DecidableEq, Repr

/-- The unmarshalled result object: binding id to document list. -/
abbrev ResultMap := List (GoStr × List ResultDoc)

/-- Map read on the result object; none models an absent or nil entry. -/
def resultLookup (m : ResultMap) (k : GoStr) : Option (List ResultDoc) :=
  match m with
  | [] => none
  | (k2, v) :: rest => if k2 = k then some v else resultLookup rest k

/-- slices.Contains on id strings. -/
def containsStr (l : List GoStr) (s : GoStr) : Bool := l.any (fun x => x = s)

/-- The node-filter loop of sanitizeGraph: a node is appended once per
document stored under its Id whose name equals the node Name. -/
def filterNodes (rm : ResultMap) (nodes : List Node) : List Node :=
  nodes.flatMap (fun n =>
    match resultLookup rm n.Id with
    | none => []
    | some docs =>
      (docs.filter (fun d => d.nameField = some n.Name)).map (fun _ => n))

/-- sanitizeGraph: dedupe nodes by Kind/Name id, drop nodes without a
matching live document, then keep only the edges whose From and To both
occur among the surviving node ids. -/
def sanitizeGraph (g : Graph) (result : Option ResultMap) : Except GoStr Graph :=
  match result with
  | none => .error "error unmarshalling result".toList
  | some rm =>
    let filteredNodes := filterNodes rm (dedupNodes g.Nodes)
    let filteredNodeIds := filteredNodes.map mkNodeId
    .ok ⟨filteredNodes,
      g.Edges.filter (fun e =>
        containsStr filteredNodeIds e.From && containsStr filteredNodeIds e.To)⟩

/-- containsStr decides membership. -/
theorem containsStr_iff (l : List GoStr) (s : GoStr) :
    containsStr l s = true ↔ s ∈ l := by
  simp [containsStr, List.any_eq_true]

/-- A node surviving the filter has a matching document under its Id. -/
theorem filterNodes_mem (rm : ResultMap) (ns : List Node) (n : Node)
    (h : n ∈ filterNodes rm ns) :
    ∃ docs, resultLookup rm n.Id = some docs ∧
      ∃ d ∈ docs, d.nameField = some n.Name := by
  unfold filterNodes at h
  rcases List.mem_flatMap.mp h with ⟨a, ha, hn⟩
  rcases hr : resultLookup rm a.Id with _ | docs
  · rw [hr] at hn
    exact absurd hn (List.not_mem_nil n)
  · rw [hr] at hn
    rcases List.mem_map.mp hn with ⟨d, hd, heq⟩
    cases heq
    rcases List.mem_filter.mp hd with ⟨hdm, hdn⟩
    exact ⟨docs, hr, d, hdm, by simpa using hdn⟩

/-- Claim C6: after sanitization, every surviving edge points at nodes
that survived (both endpoint ids name nodes of the sanitized graph), every
surviving node still has a matching live document, an edge of the input
whose endpoints both survive is kept intact, and an edge with an endpoint
that no surviving node carries is dropped. -/
theorem c6_sanitizeGraph_edges (g : Graph) (rm : ResultMap) (g2 : Graph)
    (h : sanitizeGraph g (some rm) = .ok g2) :
    (∀ e ∈ g2.Edges,
      (∃ n ∈ g2.Nodes, mkNodeId n = e.From) ∧ (∃ n ∈ g2.Nodes, mkNodeId n = e.To)) ∧
    (∀ n ∈ g2.Nodes, ∃ docs, resultLookup rm n.Id = some docs ∧
      ∃ d ∈ docs, d.nameField = some n.Name) ∧
    (∀ e ∈ g.Edges,
      (∃ n ∈ g2.Nodes, mkNodeId n = e.From) → (∃ n ∈ g2.Nodes, mkNodeId n = e.To) →
      e ∈ g2.Edges) ∧
    (∀ e ∈ g.Edges,
      ((∀ n ∈ g2.Nodes, mkNodeId n ≠ e.From) ∨ (∀ n ∈ g2.Nodes, mkNodeId n ≠ e.To)) →
      e ∉ g2.Edges) := by
  have hg2 : g2 = ⟨filterNodes rm (dedupNodes g.Nodes),
      g.Edges.filter (fun e =>
        containsStr ((filterNodes rm (dedupNodes g.Nodes)).map mkNodeId) e.From &&
        containsStr ((filterNodes rm (dedupNodes g.Nodes)).map mkNodeId) e.To)⟩ := by
    unfold sanitizeGraph at h
    simpa using h.symm
  subst hg2
  refine ⟨?_, ?_, ?_, ?_⟩
  · intro e he
    rcases List.mem_filter.mp he with ⟨hmem, hcond⟩
    simp only [Bool.and_eq_true] at hcond
    rcases hcond with ⟨hf, ht⟩
    constructor
    · rcases List.mem_map.mp ((containsStr_iff _ _).mp hf) with ⟨n, hn, hid⟩
      exact ⟨n, hn, hid⟩
    · rcases List.mem_map.mp ((containsStr_iff _ _).mp ht) with ⟨n, hn, hid⟩
      exact ⟨n, hn, hid⟩
  · intro n hn
    exact filterNodes_mem rm (dedupNodes g.Nodes) n hn
  · intro e he hf ht
    refine List.mem_filter.mpr ⟨he, ?_⟩
    simp only [Bool.and_eq_true]
    refine ⟨?_, ?_⟩
    · rcases hf with ⟨n, hn, hid⟩
      exact (containsStr_iff _ _).mpr (List.mem_map.mpr ⟨n, hn, hid⟩)
    · rcases ht with ⟨n, hn, hid⟩
      exact (containsStr_iff _ _).mpr (List.mem_map.mpr ⟨n, hn, hid⟩)
  · intro e he hnone hin
    rcases List.mem_filter.mp hin with ⟨hmem, hcond⟩
    simp only [Bool.and_eq_true] at hcond
    rcases hcond with ⟨hf, ht⟩
    rcases hnone with hno | hno
    · rcases List.mem_map.mp ((containsStr_iff _ _).mp hf) with ⟨n, hn, hid⟩
      exact hno n hn hid
    · rcases List.mem_map.mp ((containsStr_iff _ _).mp ht) with ⟨n, hn, hid⟩
      exact hno n hn hid

/-- Witness for C6: a two-node graph where only the Deployment node keeps
a live document; the edge to the emptied Service node is dropped while
the Deployment-to-Deployment loop edge survives. -/
theorem c6_sanitizeGraph_edges_witness :
    sanitizeGraph
        ⟨[⟨"d".toList, "Deployment".toList, "web".toList⟩,
          ⟨"s".toList, "Service".toList, "svc".toList⟩],
         [⟨"Deployment/web".toList, "Deployment/web".toList, "loop".toList⟩,
          ⟨"Deployment/web".toList, "Service/svc".toList, "EXPOSE".toList⟩]⟩
        (some [("d".toList, [⟨some "web".toList⟩]), ("s".toList, [])]) =
      .ok ⟨[⟨"d".toList, "Deployment".toList, "web".toList⟩],
        [⟨"Deployment/web".toList, "Deployment/web".toList, "loop".toList⟩]⟩ ∧
    (∀ e ∈ ([⟨"Deployment/web".toList, "Deployment/web".toList, "loop".toList⟩] :
        List Edge),
      (∃ n ∈ [Node.mk "d".toList "Deployment".toList "web".toList],
        mkNodeId n = e.From) ∧
      (∃ n ∈ [Node.mk "d".toList "Deployment".toList "web".toList],
        mkNodeId n = e.To)) :=
  ⟨rfl,
   (c6_sanitizeGraph_edges
      ⟨[⟨"d".toList, "Deployment".toList, "web".toList⟩,
        ⟨"s".toList, "Service".toList, "svc".toList⟩],
       [⟨"Deployment/web".toList, "Deployment/web".toList, "loop".toList⟩,
        ⟨"Deployment/web".toList, "Service/svc".toList, "EXPOSE".toList⟩]⟩
      [("d".toList, [⟨some "web".toList⟩]), ("s".toList, [])]
      ⟨[⟨"d".toList, "Deployment".toList, "web".toList⟩],
       [⟨"Deployment/web".toList, "Deployment/web".toList, "loop".toList⟩]⟩
      rfl).1⟩

/-- Go strings.Split with a single-character separator: empty segments
are preserved and the result is never empty. -/
def splitOnChar (sep : Char) : GoStr → List GoStr
  | [] => [[]]
  | c :: rest =>
    if c = sep then [] :: splitOnChar sep rest
    else
      match splitOnChar sep rest with
      | [] => [[c]]
      | s :: ss => (c :: s) :: ss

/-- getKindFromNodeId: parts[0] of the slash split (always present). -/
def getKindFromNodeId (nodeId : GoStr) : GoStr := (splitOnChar '/' nodeId).headD []

/-- getNameFromNodeId: parts[1] of the slash split; none models the
index-out-of-range fault raised when the id holds no slash. -/
def getNameFromNodeId (nodeId : GoStr) : Option GoStr := (splitOnChar '/' nodeId)[1]?

/-- The split is never empty. -/
theorem splitOnChar_ne_nil (sep : Char) (s : GoStr) : splitOnChar sep s ≠ [] := by
  induction s with
  | nil => simp [splitOnChar]
  | cons c rest ih =>
    unfold splitOnChar
    by_cases hc : c = sep
    · simp [hc]
    · rw [if_neg hc]
      rcases hsp : splitOnChar sep rest with _ | ⟨s0, ss⟩
      · simp
      · simp

/-- The first segment of the split is the run before the first
separator. -/
theorem splitOnChar_head (sep : Char) (s : GoStr) :
    (splitOnChar sep s).headD [] = s.takeWhile (fun c => c ≠ sep) := by
  induction s with
  | nil => rfl
  | cons c rest ih =>
    unfold splitOnChar
    by_cases hc : c = sep
    · rw [if_pos hc]
      simp [List.takeWhile_cons, hc]
    · rw [if_neg hc]
      rcases hsp : splitOnChar sep rest with _ | ⟨s0, ss⟩
      · exact absurd hsp (splitOnChar_ne_nil sep rest)
      · rw [hsp] at ih
        simp only [List.headD_cons] at ih ⊢
        rw [List.takeWhile_cons, if_pos (by simp [hc]), ih]

/-- A separator-free string splits into itself alone. -/
theorem splitOnChar_no_sep (sep : Char) (s : GoStr) (h : sep ∉ s) :
    splitOnChar sep s = [s] := by
  induction s with
  | nil => rfl
  | cons c rest ih =>
    unfold splitOnChar
    have hc : ¬ c = sep := by
      intro hq
      exact h (by rw [hq]; exact List.mem_cons_self sep rest)
    rw [if_neg hc, ih (fun hm => h (List.mem_cons_of_mem c hm))]

/-- The defining equation of splitOnChar on a cons cell. -/
theorem splitOnChar_cons (sep c : Char) (rest : GoStr) :
    splitOnChar sep (c :: rest) =
      if c = sep then [] :: splitOnChar sep rest
      else match splitOnChar sep rest with
        | [] => [[c]]
        | s :: ss => (c :: s) :: ss := rfl

/-- Splitting around an explicit first separator. -/
theorem splitOnChar_append (sep : Char) (k m : GoStr) (h : sep ∉ k) :
    splitOnChar sep (k ++ sep :: m) = k :: splitOnChar sep m := by
  induction k with
  | nil =>
    show splitOnChar sep (sep :: m) = [] :: splitOnChar sep m
    rw [splitOnChar_cons, if_pos rfl]
  | cons c krest ih =>
    have hc : ¬ c = sep := by
      intro hq
      exact h (by rw [hq]; exact List.mem_cons_self sep krest)
    have ih2 := ih (fun hm => h (List.mem_cons_of_mem c hm))
    rw [List.cons_append, splitOnChar_cons, if_neg hc, ih2]

/-- A string holding a separator decomposes at the first separator, with
a separator-free run in front. -/
theorem eq_takeWhile_cons_dropWhile (s : GoStr) (h : '/' ∈ s) :
    s = s.takeWhile (fun c => c ≠ '/') ++
        '/' :: (s.dropWhile (fun c => c ≠ '/')).tail ∧
    '/' ∉ s.takeWhile (fun c => c ≠ '/') := by
  induction s with
  | nil => cases h
  | cons c rest ih =>
    by_cases hc : c = '/'
    · subst hc
      refine ⟨?_, ?_⟩
      · simp [List.takeWhile_cons, List.dropWhile_cons]
      · simp [List.takeWhile_cons]
    · have hr : '/' ∈ rest := by
        rcases List.mem_cons.mp h with h1 | h1
        · exact absurd h1.symm hc
        · exact h1
      rcases ih hr with ⟨ih1, ih2⟩
      refine ⟨?_, ?_⟩
      · rw [List.takeWhile_cons, if_pos (by simp [hc]), List.dropWhile_cons,
          if_pos (by simp [hc]), List.cons_append]
        exact congrArg (c :: ·) ih1
      · rw [List.takeWhile_cons, if_pos (by simp [hc])]
        intro hm
        rcases List.mem_cons.mp hm with h1 | h1
        · exact hc h1.symm
        · exact ih2 h1

/-- On an id holding a slash, getNameFromNodeId returns the segment
between the first slash and the next one. -/
theorem getName_of_mem (s : GoStr) (h : '/' ∈ s) :
    getNameFromNodeId s =
      some (((s.dropWhile (fun c => c ≠ '/')).tail).takeWhile (fun c => c ≠ '/')) := by
  rcases eq_takeWhile_cons_dropWhile s h with ⟨h1, h2⟩
  unfold getNameFromNodeId
  conv_lhs => rw [h1]
  rw [splitOnChar_append '/' _ _ h2]
  rcases hsp : splitOnChar '/' ((s.dropWhile (fun c => c ≠ '/')).tail) with _ | ⟨s0, ss⟩
  · exact absurd hsp (splitOnChar_ne_nil _ _)
  · have hh := splitOnChar_head '/' ((s.dropWhile (fun c => c ≠ '/')).tail)
    rw [hsp] at hh
    simp only [List.headD_cons] at hh
    simp [hh]

/-- Claim C9: the id strings sanitizeGraph constructs are Kind, slash,
Name, so they always hold a slash; getKindFromNodeId returns the segment
before the first slash of any id; getNameFromNodeId returns the segment
immediately after the first slash when one exists; and on an id with no
slash the parts[1] access is out of bounds (modelled as none), so the
fault is unreachable exactly under the at-least-one-slash
precondition. -/
theorem c9_node_id_segments :
    (∀ n : Node, mkNodeId n = n.Kind ++ '/' :: n.Name ∧ '/' ∈ mkNodeId n) ∧
    (∀ s : GoStr, getKindFromNodeId s = s.takeWhile (fun c => c ≠ '/')) ∧
    (∀ s : GoStr, '/' ∈ s →
      getNameFromNodeId s =
        some (((s.dropWhile (fun c => c ≠ '/')).tail).takeWhile (fun c => c ≠ '/'))) ∧
    (∀ s : GoStr, '/' ∉ s → getNameFromNodeId s = none) := by
  refine ⟨?_, ?_, getName_of_mem, ?_⟩
  · intro n
    refine ⟨rfl, ?_⟩
    unfold mkNodeId
    exact List.mem_append_right _ (List.mem_cons_self _ _)
  · intro s
    unfold getKindFromNodeId
    exact splitOnChar_head '/' s
  · intro s h
    unfold getNameFromNodeId
    rw [splitOnChar_no_sep '/' s h]
    rfl

/-- Witness for C9: a well-formed id splits into kind and name; an id
with no slash makes the name access out of bounds. -/
theorem c9_node_id_segments_witness :
    ('/' ∈ "Deployment/web".toList) ∧
    getNameFromNodeId "Deployment/web".toList = some "web".toList ∧
    getNameFromNodeId "noslash".toList = none :=
  ⟨by decide,
   by rw [c9_node_id_segments.2.2.1 "Deployment/web".toList (by decide)]; rfl,
   c9_node_id_segments.2.2.2 "noslash".toList (by decide)⟩

/-!
SECTION - Request dispatch (NewQueryExecutor and processRequests in shell.go)

NewQueryExecutor creates an unbuffered request channel, a semaphore
channel of capacity one, and starts processRequests once in the
background.  The loop body is: receive a request, send into the semaphore
(acquire), call fetchResources, receive from the semaphore (release),
reply.  This is modelled as a small-step transition system: submissions
from any number of concurrent callers grow a pending count, and each
worker walks through the phases of the loop body; the semaphore is a
counter of held tokens bounded by the capacity.  A fetch is in flight
exactly while a worker sits in the fetching phase.
-/

/-- Position of a worker inside the body of processRequests. -/
inductive WorkerPhase where
  | waiting
  | gotRequest
  | fetching
  | releasing
  | replying
deriving DecidableEq, Repr

/-- Global state: submitted-but-undelivered requests, the workers (the
program starts exactly one), and the tokens held in the semaphore. -/
structure ExecState where
  pending : Nat
  workers : List WorkerPhase
  semUsed : Nat
deriving DecidableEq, Repr

/-- The semaphore capacity the constructor chooses: one. -/
def defaultSemCapacity : Nat := 1

/-- Number of fetch calls in flight. -/
def countFetching (ws : List WorkerPhase) : Nat :=
  ws.countP (fun w => w = .fetching)

/-- Number of workers holding a semaphore token (acquired, not yet
released). -/
def countHolding (ws : List WorkerPhase) : Nat :=
  ws.countP (fun w => w = .fetching || w = .releasing)

/-- One step of the system: a caller submits, or a worker advances
through the loop body.  Acquiring blocks unless a token is free. -/
inductive Step (cap : Nat) : ExecState → ExecState → Prop where
  | submit (s : ExecState) :
      Step cap s ⟨s.pending + 1, s.workers, s.semUsed⟩
  | take (s : ExecState) (i : Nat) (h : s.workers.get? i = some .waiting)
      (hp : 0 < s.pending) :
      Step cap s ⟨s.pending - 1, s.workers.set i .gotRequest, s.semUsed⟩
  | acquire (s : ExecState) (i : Nat) (h : s.workers.get? i = some .gotRequest)
      (hsem : s.semUsed < cap) :
      Step cap s ⟨s.pending, s.workers.set i .fetching, s.semUsed + 1⟩
  | finish (s : ExecState) (i : Nat) (h : s.workers.get? i = some .fetching) :
      Step cap s ⟨s.pending, s.workers.set i .releasing, s.semUsed⟩
  | release (s : ExecState) (i : Nat) (h : s.workers.get? i = some .releasing) :
      Step cap s ⟨s.pending, s.workers.set i .replying, s.semUsed - 1⟩
  | reply (s : ExecState) (i : Nat) (h : s.workers.get? i = some .replying) :
      Step cap s ⟨s.pending, s.workers.set i .waiting, s.semUsed⟩

/-- Reachability under the step relation. -/
def Reachable (cap : Nat) (s t : ExecState) : Prop :=
  Relation.ReflTransGen (Step cap) s t

/-- The state right after NewQueryExecutor returns: nothing pending, w
idle workers, no token held. -/
def initState (w : Nat) : ExecState := ⟨0, List.replicate w .waiting, 0⟩

/-- The semaphore discipline: held tokens never exceed the capacity, and
every worker between acquire and release accounts for a held token. -/
def GateInvariant (cap : Nat) (s : ExecState) : Prop :=
  countHolding s.workers ≤ s.semUsed ∧ s.semUsed ≤ cap

/-- Updating one list entry moves countP by the difference of the old and
new elements. -/
theorem countP_set_balance (p : WorkerPhase → Bool) (ws : List WorkerPhase)
    (i : Nat) (w q : WorkerPhase) (h : ws.get? i = some w) :
    (ws.set i q).countP p + (if p w then 1 else 0) =
      ws.countP p + (if p q then 1 else 0) := by
  induction ws generalizing i with
  | nil => simp at h
  | cons a rest ih =>
    cases i with
    | zero =>
      simp only [List.get?] at h
      cases h
      simp only [List.set, List.countP_cons]
      omega
    | succ j =>
      simp only [List.get?] at h
      simp only [List.set, List.countP_cons]
      have := ih j h
      omega

/-- Every step preserves the semaphore discipline. -/
theorem step_preserves_gateInvariant (cap : Nat) (s t : ExecState)
    (hstep : Step cap s t) (hinv : GateInvariant cap s) : GateInvariant cap t := by
  rcases hinv with ⟨h1, h2⟩
  cases hstep with
  | submit => exact ⟨h1, h2⟩
  | take i h hp =>
    have hb := countP_set_balance
      (fun w => w = .fetching || w = .releasing) s.workers i _ .gotRequest h
    unfold GateInvariant countHolding at *
    simp only [show WorkerPhase.waiting = WorkerPhase.fetching ↔ False from by simp,
      show WorkerPhase.waiting = WorkerPhase.releasing ↔ False from by simp,
      show WorkerPhase.gotRequest = WorkerPhase.fetching ↔ False from by simp,
      show WorkerPhase.gotRequest = WorkerPhase.releasing ↔ False from by simp,
      show WorkerPhase.replying = WorkerPhase.fetching ↔ False from by simp,
      show WorkerPhase.replying = WorkerPhase.releasing ↔ False from by simp,
      show WorkerPhase.fetching = WorkerPhase.releasing ↔ False from by simp,
      show WorkerPhase.releasing = WorkerPhase.fetching ↔ False from by simp,
      decide_False, decide_True, Bool.or_false, Bool.false_or, Bool.or_true,
      if_true, if_false, Bool.false_eq_true, Bool.true_eq_false] at hb ⊢
    omega
  | acquire i h hsem =>
    have hb := countP_set_balance
      (fun w => w = .fetching || w = .releasing) s.workers i _ .fetching h
    unfold GateInvariant countHolding at *
    simp only [show WorkerPhase.waiting = WorkerPhase.fetching ↔ False from by simp,
      show WorkerPhase.waiting = WorkerPhase.releasing ↔ False from by simp,
      show WorkerPhase.gotRequest = WorkerPhase.fetching ↔ False from by simp,
      show WorkerPhase.gotRequest = WorkerPhase.releasing ↔ False from by simp,
      show WorkerPhase.replying = WorkerPhase.fetching ↔ False from by simp,
      show WorkerPhase.replying = WorkerPhase.releasing ↔ False from by simp,
      show WorkerPhase.fetching = WorkerPhase.releasing ↔ False from by simp,
      show WorkerPhase.releasing = WorkerPhase.fetching ↔ False from by simp,
      decide_False, decide_True, Bool.or_false, Bool.false_or, Bool.or_true,
      if_true, if_false, Bool.false_eq_true, Bool.true_eq_false] at hb ⊢
    omega
  | finish i h =>
    have hb := countP_set_balance
      (fun w => w = .fetching || w = .releasing) s.workers i _ .releasing h
    unfold GateInvariant countHolding at *
    simp only [show WorkerPhase.waiting = WorkerPhase.fetching ↔ False from by simp,
      show WorkerPhase.waiting = WorkerPhase.releasing ↔ False from by simp,
      show WorkerPhase.gotRequest = WorkerPhase.fetching ↔ False from by simp,
      show WorkerPhase.gotRequest = WorkerPhase.releasing ↔ False from by simp,
      show WorkerPhase.replying = WorkerPhase.fetching ↔ False from by simp,
      show WorkerPhase.replying = WorkerPhase.releasing ↔ False from by simp,
      show WorkerPhase.fetching = WorkerPhase.releasing ↔ False from by simp,
      show WorkerPhase.releasing = WorkerPhase.fetching ↔ False from by simp,
      decide_False, decide_True, Bool.or_false, Bool.false_or, Bool.or_true,
      if_true, if_false, Bool.false_eq_true, Bool.true_eq_false] at hb ⊢
    omega
  | release i h =>
    have hb := countP_set_balance
      (fun w => w = .fetching || w = .releasing) s.workers i _ .replying h
    unfold GateInvariant countHolding at *
    simp only [show WorkerPhase.waiting = WorkerPhase.fetching ↔ False from by simp,
      show WorkerPhase.waiting = WorkerPhase.releasing ↔ False from by simp,
      show WorkerPhase.gotRequest = WorkerPhase.fetching ↔ False from by simp,
      show WorkerPhase.gotRequest = WorkerPhase.releasing ↔ False from by simp,
      show WorkerPhase.replying = WorkerPhase.fetching ↔ False from by simp,
      show WorkerPhase.replying = WorkerPhase.releasing ↔ False from by simp,
      show WorkerPhase.fetching = WorkerPhase.releasing ↔ False from by simp,
      show WorkerPhase.releasing = WorkerPhase.fetching ↔ False from by simp,
      decide_False, decide_True, Bool.or_false, Bool.false_or, Bool.or_true,
      if_true, if_false, Bool.false_eq_true, Bool.true_eq_false] at hb ⊢
    omega
  | reply i h =>
    have hb := countP_set_balance
      (fun w => w = .fetching || w = .releasing) s.workers i _ .waiting h
    unfold GateInvariant countHolding at *
    simp only [show WorkerPhase.waiting = WorkerPhase.fetching ↔ False from by simp,
      show WorkerPhase.waiting = WorkerPhase.releasing ↔ False from by simp,
      show WorkerPhase.gotRequest = WorkerPhase.fetching ↔ False from by simp,
      show WorkerPhase.gotRequest = WorkerPhase.releasing ↔ False from by simp,
      show WorkerPhase.replying = WorkerPhase.fetching ↔ False from by simp,
      show WorkerPhase.replying = WorkerPhase.releasing ↔ False from by simp,
      show WorkerPhase.fetching = WorkerPhase.releasing ↔ False from by simp,
      show WorkerPhase.releasing = WorkerPhase.fetching ↔ False from by simp,
      decide_False, decide_True, Bool.or_false, Bool.false_or, Bool.or_true,
      if_true, if_false, Bool.false_eq_true, Bool.true_eq_false] at hb ⊢
    omega

/-- The initial state satisfies the discipline. -/
theorem initState_gateInvariant (cap w : Nat) : GateInvariant cap (initState w) := by
  constructor
  · have : countHolding (List.replicate w .waiting) = 0 := by
      apply List.countP_eq_zero.mpr
      intro a ha
      rw [List.eq_of_mem_replicate ha]
      decide
    simp [initState, this]
  · simp [initState]

/-- The discipline holds in every reachable state. -/
theorem reachable_gateInvariant (cap w : Nat) (s : ExecState)
    (h : Reachable cap (initState w) s) : GateInvariant cap s := by
  induction h with
  | refl => exact initState_gateInvariant cap w
  | tail hr hstep ih => exact step_preserves_gateInvariant cap _ _ hstep ih

/-- A fetch in flight is a held token. -/
theorem countFetching_le_countHolding (ws : List WorkerPhase) :
    countFetching ws ≤ countHolding ws := by
  induction ws with
  | nil => simp [countFetching, countHolding]
  | cons a rest ih =>
    unfold countFetching countHolding at *
    simp only [List.countP_cons]
    cases a <;> simp <;> omega

/-- Claim C5: with the default capacity of one and the single worker the
constructor starts, in every state reachable under any number of
concurrent submissions at most one fetch call is in flight, and a fetch
in flight always holds the semaphore token acquired before the live
operation. -/
theorem c5_fetches_serialized (s : ExecState)
    (h : Reachable defaultSemCapacity (initState 1) s) :
    countFetching s.workers ≤ 1 ∧
    (1 ≤ countFetching s.workers → 1 ≤ s.semUsed) := by
  have hinv := reachable_gateInvariant defaultSemCapacity 1 s h
  rcases hinv with ⟨h1, h2⟩
  have h3 := countFetching_le_countHolding s.workers
  unfold defaultSemCapacity at h2
  exact ⟨by omega, by omega⟩

/-- Witness for C5: the state with the single worker mid-fetch, reached
by one submission, the take, and the acquire, has exactly one fetch in
flight and the token held. -/
theorem c5_fetches_serialized_witness :
    countFetching (ExecState.mk 0 [.fetching] 1).workers ≤ 1 ∧
    (1 ≤ countFetching (ExecState.mk 0 [.fetching] 1).workers →
      1 ≤ (ExecState.mk 0 [.fetching] 1).semUsed) :=
  c5_fetches_serialized ⟨0, [.fetching], 1⟩
    (Relation.ReflTransGen.tail
      (Relation.ReflTransGen.tail
        (Relation.ReflTransGen.tail Relation.ReflTransGen.refl
          (Step.submit (initState 1)))
        (Step.take ⟨1, [.waiting], 0⟩ 0 rfl (by decide)))
      (Step.acquire ⟨0, [.gotRequest], 0⟩ 0 rfl (by decide)))
